import Mathlib

/-!
Shallow embedding of the ICMP ping transmitter
(`src/components/ICMPPingEngine/ICMPPingTransmitter.cpp`) of the pingnoo
traceroute analyser, together with theorems checking the specification's
claims about it.

The transmitter owns a periodic loop (`doWork`): per round it locks the
target registry, and for each target allocates a 16-bit sequence id under a
dedicated mutex, registers the ping item with the engine, builds a packet,
sends it, and starts the item's round-trip timer; after the round it sleeps
to hold the configured cadence and increments the sample counter.

The embedding represents each side effect of the loop as an `Event` so that
ordering and lock-discipline properties can be stated; the data carried by
the created `ICMPPingItem`s is modelled exactly (identifier, sequence id
with 16-bit wraparound, sample number).
-/

namespace Pingnoo

/-- The default transmit interval:
`constexpr auto DefaultTransmitInterval = 10000;` (line 37). -/
def DefaultTransmitInterval : Int := 10000

/-- Initial value of the static sequence counter:
`uint16_t ICMPPingTransmitter::m_sequenceId = 1;` (line 40). -/
def initialSequenceId : Nat := 1

/-- One execution of `uint16_t currentSequenceId = m_sequenceId++;`
(line 78): returns the current counter value and the new counter value,
which wraps around at 16 bits because `m_sequenceId` is `uint16_t`. -/
def allocSequence (s : Nat) : Nat × Nat := (s, (s + 1) % 65536)

/-- Counter value after `k` allocations starting from counter value `s`. -/
def seqCounterAfter (s : Nat) : Nat → Nat
  | 0 => s
  | k + 1 => (allocSequence (seqCounterAfter s k)).2

/-- Sequence id handed out by the `k`-th allocation (0-indexed) when the
counter starts at `s`. -/
def seqAllocAt (s k : Nat) : Nat := (allocSequence (seqCounterAfter s k)).1

/-- A monitored endpoint (`ICMPPingTarget`): the fields the transmitter
reads — `hostAddress()` (abstracted to a number) and `id()`. -/
structure ICMPPingTarget where
  hostAddress : Nat
  id : Nat
  deriving Repr, DecidableEq

/-- The correlation record created per probe (`ICMPPingItem`), with the
fields the transmitter sets: target identifier (`setId`), sequence id
(`setSequenceId`), sample number (`setSampleNumber`), and whether
`startTimer()` has run. -/
structure ICMPPingItem where
  targetId : Nat
  sequenceId : Nat
  sampleNumber : Nat
  timerStarted : Bool
  deriving Repr, DecidableEq

/-- The observable side effects of the transmitter, in program order. -/
inductive Event where
  | epochSet                                     -- m_engine->setEpoch(...)  (line 61)
  | targetsLock                                  -- m_targetsMutex.lock()    (line 70)
  | targetsUnlock                                -- m_targetsMutex.unlock()  (line 110)
  | seqLock                                      -- m_sequenceMutex.lock()   (line 77)
  | seqAlloc (seq : Nat)                         -- m_sequenceId++           (line 78)
  | seqUnlock                                    -- m_sequenceMutex.unlock() (line 79)
  | requestAdd (targetId seq sample : Nat)       -- m_engine->addRequest     (line 86)
  | packetBuild (targetId seq : Nat)             -- ICMPPacket::pingPacket   (line 88)
  | packetSend (targetId seq : Nat) (ok : Bool)  -- socket->sendto           (line 95)
  | timerStart (targetId seq : Nat)              -- pingItem->startTimer()   (line 97)
  | sendErrorLog (targetId : Nat)                -- SPDLOG_ERROR             (line 106)
  | targetAppend (targetId : Nat)                -- m_targets.append(target) (line 131)
  | sleepFor (ms : Int)                          -- QThread::msleep          (line 115)
  deriving Repr, DecidableEq

/-- The body of the `for (auto target : m_targets)` loop (lines 72–107) for
one target: allocate a sequence id under the sequence mutex, set the item's
fields, register it with the engine (`addRequest`), build the packet, send
it (`sendOk` says whether `result == buffer.length()`), start the item's
timer, and log an error when the send failed.  Returns the emitted events,
the created item, and the new sequence-counter value. -/
def transmitToTarget (sample : Nat) (sendOk : Bool) (target : ICMPPingTarget)
    (seqState : Nat) : List Event × ICMPPingItem × Nat :=
  let seq := (allocSequence seqState).1
  let item : ICMPPingItem :=
    { targetId := target.id, sequenceId := seq, sampleNumber := sample,
      timerStarted := true }
  (([Event.seqLock, Event.seqAlloc seq, Event.seqUnlock,
     Event.requestAdd target.id seq sample,
     Event.packetBuild target.id seq,
     Event.packetSend target.id seq sendOk,
     Event.timerStart target.id seq] ++
    (if sendOk then [] else [Event.sendErrorLog target.id])),
   item, (allocSequence seqState).2)

/-- The whole `for` loop over the registered targets; `sendOkF i` tells
whether the send for the `i`-th target of the round succeeded.  Returns the
events, the created items in creation order, and the final counter. -/
def transmitRoundAux (sample : Nat) (sendOkF : Nat → Bool) :
    List ICMPPingTarget → Nat → Nat → List Event × List ICMPPingItem × Nat
  | [], _, seqState => ([], [], seqState)
  | t :: ts, idx, seqState =>
    let step := transmitToTarget sample (sendOkF idx) t seqState
    let rest := transmitRoundAux sample sendOkF ts (idx + 1) step.2.2
    (step.1 ++ rest.1, step.2.1 :: rest.2.1, rest.2.2)

/-- The `QThread::msleep` duration of one round (lines 114–116): the code
sleeps `m_interval - elapsedTime` when `elapsedTime < m_interval` and does
not sleep otherwise. -/
def sleepTime (interval elapsed : Int) : Int :=
  if elapsed < interval then interval - elapsed else 0

/-- One iteration of the `while (m_isRunning)` loop (lines 63–119): lock
the target registry, probe every target, unlock, then sleep the cadence
remainder (`elapsed` is the measured wall-time of the iteration). -/
def transmitRound (sample : Nat) (sendOkF : Nat → Bool)
    (targets : List ICMPPingTarget) (seqState : Nat) (interval elapsed : Int) :
    List Event × List ICMPPingItem × Nat :=
  let body := transmitRoundAux sample sendOkF targets 0 seqState
  (Event.targetsLock :: body.1 ++
     [Event.targetsUnlock, Event.sleepFor (sleepTime interval elapsed)],
   body.2.1, body.2.2)

/-- Runs `n` iterations of the transmit loop starting at sample number `sample`
and sequence counter `seqState` (the loop runs until `m_isRunning` is
cleared externally; we observe the first `n` rounds).  `sendOkF r i` is the
send outcome for target `i` in round `r`; `elapsedF r` the measured
wall-time of round `r`. -/
def doWorkLoop (sendOkF : Nat → Nat → Bool) (targets : List ICMPPingTarget)
    (elapsedF : Nat → Int) (interval : Int) :
    Nat → Nat → Nat → List Event × List ICMPPingItem × Nat
  | 0, _, seqState => ([], [], seqState)
  | n + 1, sample, seqState =>
    let r := transmitRound sample (sendOkF sample) targets seqState interval
      (elapsedF sample)
    let rest := doWorkLoop sendOkF targets elapsedF interval n (sample + 1) r.2.2
    (r.1 ++ rest.1, r.2.1 ++ rest.2.1, rest.2.2)

/-- The loop body of `ICMPPingTransmitter::doWork()` (lines 55–120): sets `sampleNumber = 0`,
sets the engine epoch once, then runs the transmit loop. -/
def doWork (sendOkF : Nat → Nat → Bool) (targets : List ICMPPingTarget)
    (elapsedF : Nat → Int) (interval : Int) (rounds : Nat) (seqState : Nat) :
    List Event × List ICMPPingItem × Nat :=
  let r := doWorkLoop sendOkF targets elapsedF interval rounds 0 seqState
  (Event.epochSet :: r.1, r.2.1, r.2.2)

/-- The registration path `ICMPPingTransmitter::addTarget` (lines 128–132): locks the target
registry mutex (`QMutexLocker`) and appends the target. -/
def addTarget (t : ICMPPingTarget) (targets : List ICMPPingTarget) :
    List Event × List ICMPPingTarget :=
  ([Event.targetsLock, Event.targetAppend t.id, Event.targetsUnlock],
   targets ++ [t])

/-- The state of the target-registry mutex after processing one event. -/
def lockStep (held : Bool) (e : Event) : Bool :=
  match e with
  | Event.targetsLock => true
  | Event.targetsUnlock => false
  | _ => held

/-- Whether the target-registry mutex is held when the event at position
`i` of the trace executes (the mutex starts unlocked). -/
def lockHeldAt (evs : List Event) (i : Nat) : Bool :=
  (evs.take i).foldl lockStep false

/-- Events emitted while probing one target inside the per-round loop. -/
def isTargetProbeEvent : Event → Bool
  | Event.seqLock => true
  | Event.seqAlloc _ => true
  | Event.seqUnlock => true
  | Event.requestAdd _ _ _ => true
  | Event.packetBuild _ _ => true
  | Event.packetSend _ _ _ => true
  | Event.timerStart _ _ => true
  | Event.sendErrorLog _ => true
  | _ => false

/-- The transmitter's fields set by the constructor (lines 44–49):
`m_interval(DefaultTransmitInterval)`, `m_isRunning(false)`, and the (empty)
target registry. -/
structure ICMPPingTransmitter where
  m_interval : Int
  m_targets : List ICMPPingTarget
  m_isRunning : Bool
  deriving Repr, DecidableEq

/-- A freshly constructed `ICMPPingTransmitter`. -/
def mkICMPPingTransmitter : ICMPPingTransmitter :=
  { m_interval := DefaultTransmitInterval, m_targets := [], m_isRunning := false }

/-- The setter `ICMPPingTransmitter::setInterval` (lines 122–126): stores the argument
unconditionally and returns `true`. -/
def setInterval (t : ICMPPingTransmitter) (x : Int) : Bool × ICMPPingTransmitter :=
  (true, { t with m_interval := x })

/-- The getter `ICMPPingTransmitter::interval` (lines 134–136). -/
def intervalOf (t : ICMPPingTransmitter) : Int := t.m_interval

/-- Modelled from the spec: the engine's epoch storage.  The claims refer
to `IPingEngine::epoch()`; the concrete `ICMPPingEngine::setEpoch` /
`ICMPPingEngine::epoch` bodies are not among the provided sources, and the
spec says `epoch() -> measurement start time`, "the timestamp marking when
a measurement session began". -/
structure EngineClock where
  epochTime : Option Int
  deriving Repr, DecidableEq

/-- Modelled from the spec: `setEpoch` stores the measurement start time. -/
def setEpoch (t : Int) (_e : EngineClock) : EngineClock :=
  { epochTime := some t }

/-- Modelled from the spec: `epoch()` returns the stored start time. -/
def epoch (e : EngineClock) : Option Int := e.epochTime

/-! ## Helper lemmas: closed forms for the data created by a round -/

/-- The per-round loop creates one item per registered target, carrying that
target's identifier, whatever the send outcomes are. -/
theorem roundAux_targetId_map (sample : Nat) (f : Nat → Bool)
    (ts : List ICMPPingTarget) (idx s : Nat) :
    ((transmitRoundAux sample f ts idx s).2.1).map ICMPPingItem.targetId
      = ts.map ICMPPingTarget.id := by
  induction ts generalizing idx s with
  | nil => rfl
  | cons t ts ih => simp [transmitRoundAux, transmitToTarget, ih]

/-- Every item created in one round carries the round's sample number. -/
theorem roundAux_sample_map (sample : Nat) (f : Nat → Bool)
    (ts : List ICMPPingTarget) (idx s : Nat) :
    ((transmitRoundAux sample f ts idx s).2.1).map ICMPPingItem.sampleNumber
      = List.replicate ts.length sample := by
  induction ts generalizing idx s with
  | nil => rfl
  | cons t ts ih =>
    simp [transmitRoundAux, transmitToTarget, ih, List.replicate_succ]

/-- The sequence counter after a round advances by the number of targets,
modulo 2^16. -/
theorem roundAux_counter (sample : Nat) (f : Nat → Bool)
    (ts : List ICMPPingTarget) (idx s : Nat) (hs : s < 65536) :
    (transmitRoundAux sample f ts idx s).2.2 = (s + ts.length) % 65536 := by
  induction ts generalizing idx s with
  | nil => simp [transmitRoundAux, Nat.mod_eq_of_lt hs]
  | cons t ts ih =>
    show (transmitRoundAux sample f ts (idx + 1) ((s + 1) % 65536)).2.2 = _
    rw [ih (idx + 1) ((s + 1) % 65536) (Nat.mod_lt _ (by omega))]
    rw [Nat.mod_add_mod]
    congr 1
    simp only [List.length_cons]
    omega

/-- The sequence ids handed out in one round are consecutive counter values
modulo 2^16. -/
theorem roundAux_seq_map (sample : Nat) (f : Nat → Bool)
    (ts : List ICMPPingTarget) (idx s : Nat) (hs : s < 65536) :
    ((transmitRoundAux sample f ts idx s).2.1).map ICMPPingItem.sequenceId
      = (List.range ts.length).map (fun k => (s + k) % 65536) := by
  induction ts generalizing idx s with
  | nil => rfl
  | cons t ts ih =>
    rw [transmitRoundAux]
    show (s :: ((transmitRoundAux sample f ts (idx + 1) ((s + 1) % 65536)).2.1).map
      ICMPPingItem.sequenceId) = _
    rw [ih (idx + 1) ((s + 1) % 65536) (Nat.mod_lt _ (by omega))]
    rw [List.length_cons, List.range_succ_eq_map, List.map_cons, List.map_map]
    congr 1
    · omega
    · refine List.map_congr_left ?_
      intro k _
      show ((s + 1) % 65536 + k) % 65536 = (s + Nat.succ k) % 65536
      rw [Nat.mod_add_mod]
      congr 1
      omega

/-! ## Helper lemmas: events emitted inside one round -/

/-- Every event emitted while probing one target is a probe event. -/
theorem transmitToTarget_probe (sample : Nat) (ok : Bool) (t : ICMPPingTarget)
    (s : Nat) : ∀ e ∈ (transmitToTarget sample ok t s).1, isTargetProbeEvent e = true := by
  intro e he
  cases ok <;> simp [transmitToTarget] at he <;>
    rcases he with rfl | rfl | rfl | rfl | rfl | rfl | rfl | rfl <;> rfl

/-- Every event emitted inside the per-round target loop is a probe event. -/
theorem roundAux_probe (sample : Nat) (f : Nat → Bool)
    (ts : List ICMPPingTarget) (idx s : Nat) :
    ∀ e ∈ (transmitRoundAux sample f ts idx s).1, isTargetProbeEvent e = true := by
  induction ts generalizing idx s with
  | nil => intro e he; simp [transmitRoundAux] at he
  | cons t ts ih =>
    intro e he
    rw [transmitRoundAux] at he
    rcases List.mem_append.mp he with h | h
    · exact transmitToTarget_probe sample (f idx) t s e h
    · exact ih (idx + 1) _ e h

/-- Probe events leave the target-registry mutex state unchanged. -/
theorem lockStep_of_probe (e : Event) (he : isTargetProbeEvent e = true)
    (b : Bool) : lockStep b e = b := by
  cases e <;> simp_all [isTargetProbeEvent, lockStep]

/-- Folding the mutex state over a list of probe events is the identity. -/
theorem foldl_lockStep_const (l : List Event)
    (hl : ∀ e ∈ l, isTargetProbeEvent e = true) (b : Bool) :
    l.foldl lockStep b = b := by
  induction l generalizing b with
  | nil => rfl
  | cons e l ih =>
    rw [List.foldl_cons, lockStep_of_probe e (hl e (by simp)) b]
    exact ih (fun x hx => hl x (by simp [hx])) b

/-! ## Helper lemmas: closed forms over whole runs of the transmit loop -/

/-- Across `n` rounds, the loop creates the items of the full registry once
per round, whatever the send outcomes are. -/
theorem loop_targetId_map (f : Nat → Nat → Bool) (targets : List ICMPPingTarget)
    (eF : Nat → Int) (iv : Int) (n : Nat) :
    ∀ (m s : Nat),
      ((doWorkLoop f targets eF iv n m s).2.1).map ICMPPingItem.targetId
        = List.flatten (List.replicate n (targets.map ICMPPingTarget.id)) := by
  induction n with
  | zero => intro m s; rfl
  | succ n ih =>
    intro m s
    show ((transmitRoundAux m (f m) targets 0 s).2.1 ++
        (doWorkLoop f targets eF iv n (m + 1)
          (transmitRoundAux m (f m) targets 0 s).2.2).2.1).map
        ICMPPingItem.targetId = _
    rw [List.map_append, roundAux_targetId_map, ih]
    simp [List.replicate_succ]

/-- Across `n` rounds starting at sample number `m`, the created items carry
sample numbers `m, m, …, m+1, m+1, …, …`: one block per round, one entry per
target. -/
theorem loop_sample_map (f : Nat → Nat → Bool) (targets : List ICMPPingTarget)
    (eF : Nat → Int) (iv : Int) (n : Nat) :
    ∀ (m s : Nat),
      ((doWorkLoop f targets eF iv n m s).2.1).map ICMPPingItem.sampleNumber
        = List.flatten ((List.range n).map
            (fun r => List.replicate targets.length (m + r))) := by
  induction n with
  | zero => intro m s; rfl
  | succ n ih =>
    intro m s
    show ((transmitRoundAux m (f m) targets 0 s).2.1 ++
        (doWorkLoop f targets eF iv n (m + 1)
          (transmitRoundAux m (f m) targets 0 s).2.2).2.1).map
        ICMPPingItem.sampleNumber = _
    rw [List.map_append, roundAux_sample_map, ih (m + 1)]
    rw [List.range_succ_eq_map, List.map_cons, List.map_map, List.flatten_cons]
    congr 1
    refine congrArg _ (List.map_congr_left ?_)
    intro r _
    show List.replicate targets.length (m + 1 + r)
      = List.replicate targets.length (m + Nat.succ r)
    congr 1
    omega

/-- Across `n` rounds, the created items carry consecutive sequence ids
(modulo 2^16) continuing from the counter value `s`. -/
theorem loop_seq_map (f : Nat → Nat → Bool) (targets : List ICMPPingTarget)
    (eF : Nat → Int) (iv : Int) (n : Nat) :
    ∀ (m s : Nat), s < 65536 →
      ((doWorkLoop f targets eF iv n m s).2.1).map ICMPPingItem.sequenceId
        = (List.range (n * targets.length)).map (fun j => (s + j) % 65536) := by
  induction n with
  | zero => intro m s _; simp [doWorkLoop]
  | succ n ih =>
    intro m s hs
    have hlt : (s + targets.length) % 65536 < 65536 := Nat.mod_lt _ (by omega)
    show ((transmitRoundAux m (f m) targets 0 s).2.1 ++
        (doWorkLoop f targets eF iv n (m + 1)
          (transmitRoundAux m (f m) targets 0 s).2.2).2.1).map
        ICMPPingItem.sequenceId = _
    rw [List.map_append, roundAux_seq_map m (f m) targets 0 s hs,
      roundAux_counter m (f m) targets 0 s hs, ih (m + 1) _ hlt]
    have hmul : (n + 1) * targets.length = targets.length + n * targets.length := by
      ring
    rw [hmul, List.range_add, List.map_append, List.map_map]
    congr 1
    refine List.map_congr_left ?_
    intro j _
    show ((s + targets.length) % 65536 + j) % 65536
      = (s + (targets.length + j)) % 65536
    rw [Nat.mod_add_mod]
    congr 1
    omega

/-- A transmit round never emits the epoch-setting event. -/
theorem round_no_epochSet (sample : Nat) (f : Nat → Bool)
    (targets : List ICMPPingTarget) (s : Nat) (iv el : Int) :
    Event.epochSet ∉ (transmitRound sample f targets s iv el).1 := by
  intro h
  have h2 : (transmitRound sample f targets s iv el).1
      = (Event.targetsLock :: (transmitRoundAux sample f targets 0 s).1) ++
        [Event.targetsUnlock, Event.sleepFor (sleepTime iv el)] := rfl
  rw [h2] at h
  rcases List.mem_append.mp h with h | h
  · rcases List.mem_cons.mp h with h | h
    · exact Event.noConfusion h
    · have := roundAux_probe sample f targets 0 s Event.epochSet h
      simp [isTargetProbeEvent] at this
  · simp at h

/-- The transmit loop never emits the epoch-setting event: `setEpoch` is
called only once, before the loop starts. -/
theorem loop_no_epochSet (f : Nat → Nat → Bool) (targets : List ICMPPingTarget)
    (eF : Nat → Int) (iv : Int) (n : Nat) :
    ∀ (m s : Nat), Event.epochSet ∉ (doWorkLoop f targets eF iv n m s).1 := by
  induction n with
  | zero => intro m s h; simp [doWorkLoop] at h
  | succ n ih =>
    intro m s h
    have h2 : (doWorkLoop f targets eF iv (n + 1) m s).1
        = (transmitRound m (f m) targets s iv (eF m)).1 ++
          (doWorkLoop f targets eF iv n (m + 1)
            (transmitRound m (f m) targets s iv (eF m)).2.2).1 := rfl
    rw [h2] at h
    rcases List.mem_append.mp h with h | h
    · exact round_no_epochSet m (f m) targets s iv (eF m) h
    · exact ih (m + 1) _ h

/-- Every item created in one round has its timer started. -/
theorem roundAux_timer_map (sample : Nat) (f : Nat → Bool)
    (ts : List ICMPPingTarget) (idx s : Nat) :
    ((transmitRoundAux sample f ts idx s).2.1).map ICMPPingItem.timerStarted
      = List.replicate ts.length true := by
  induction ts generalizing idx s with
  | nil => rfl
  | cons t ts ih =>
    simp [transmitRoundAux, transmitToTarget, ih, List.replicate_succ]

/-- Every item created across `n` rounds has its timer started. -/
theorem loop_timer_map (f : Nat → Nat → Bool) (targets : List ICMPPingTarget)
    (eF : Nat → Int) (iv : Int) (n : Nat) :
    ∀ (m s : Nat),
      ((doWorkLoop f targets eF iv n m s).2.1).map ICMPPingItem.timerStarted
        = List.replicate (n * targets.length) true := by
  induction n with
  | zero => intro m s; simp [doWorkLoop]
  | succ n ih =>
    intro m s
    show ((transmitRoundAux m (f m) targets 0 s).2.1 ++
        (doWorkLoop f targets eF iv n (m + 1)
          (transmitRoundAux m (f m) targets 0 s).2.2).2.1).map
        ICMPPingItem.timerStarted = _
    rw [List.map_append, roundAux_timer_map, ih (m + 1),
      show (n + 1) * targets.length = targets.length + n * targets.length by ring,
      List.replicate_add]

/-- Flattening `n` copies of a singleton list gives `n` copies of its
element. -/
theorem flatten_replicate_singleton (n a : Nat) :
    List.flatten (List.replicate n [a]) = List.replicate n a := by
  induction n with
  | zero => rfl
  | succ n ih => simp [List.replicate_succ, ih]

/-- Flattening singleton blocks reproduces the original list. -/
theorem flatten_map_single (l : List Nat) :
    List.flatten (l.map (fun a => List.replicate 1 a)) = l := by
  induction l with
  | nil => rfl
  | cons a l ih =>
    rw [List.map_cons, List.flatten_cons, ih, List.replicate_one,
      List.singleton_append]

/-- The items of a `doWork` run are the items of its transmit loop. -/
theorem doWork_items (f : Nat → Nat → Bool) (targets : List ICMPPingTarget)
    (eF : Nat → Int) (iv : Int) (n s : Nat) :
    (doWork f targets eF iv n s).2.1 = (doWorkLoop f targets eF iv n 0 s).2.1 :=
  rfl

/-- Reading one position of a mapped field of an item list. -/
theorem field_at_of_map {α : Type} (l : List ICMPPingItem)
    (g : ICMPPingItem → α) (r : List α) (j : Nat) (hj : j < l.length) (v : α)
    (hmap : l.map g = r) (hv : r[j]? = some v) : g l[j] = v := by
  subst hmap
  rw [List.getElem?_map, List.getElem?_eq_getElem hj] at hv
  simpa using hv

/-- An item is determined by its four fields. -/
theorem item_eq_mk (a : ICMPPingItem) (t q m : Nat) (b : Bool)
    (h1 : a.targetId = t) (h2 : a.sequenceId = q) (h3 : a.sampleNumber = m)
    (h4 : a.timerStarted = b) : a = ⟨t, q, m, b⟩ := by
  cases a
  simp_all

/-! ## Claim theorems -/

/-- Claim C1, amended: any two items created by the transmit loop fewer
than 2^16 sequence allocations apart — in particular any two obtained by
concurrent transmit calls, which the mutex-protected monotonic counter
serialises into distinct adjacent allocations — carry distinct
(identifier, sequence) pairs, because their sequence ids already differ.
Beyond that window the 16-bit counter wraps and a pending item's pair can
be reused (see the counterexample below), so the unconditional claim fails. -/
theorem inflight_pairs_distinct (f : Nat → Nat → Bool)
    (targets : List ICMPPingTarget) (eF : Nat → Int) (iv : Int)
    (n s i j : Nat) (a b : ICMPPingItem)
    (hs : s < 65536) (hij : i < j) (hwin : j - i < 65536)
    (ha : ((doWork f targets eF iv n s).2.1)[i]? = some a)
    (hb : ((doWork f targets eF iv n s).2.1)[j]? = some b) :
    ¬(a.targetId = b.targetId ∧ a.sequenceId = b.sequenceId) := by
  rintro ⟨-, hseq⟩
  have hmap : ((doWork f targets eF iv n s).2.1).map ICMPPingItem.sequenceId
      = (List.range (n * targets.length)).map (fun k => (s + k) % 65536) :=
    loop_seq_map f targets eF iv n 0 s hs
  have hj : j < (doWork f targets eF iv n s).2.1.length := by
    by_contra hc
    rw [List.getElem?_eq_none (by omega)] at hb
    exact Option.noConfusion hb
  have hlen : (doWork f targets eF iv n s).2.1.length = n * targets.length := by
    have := congrArg List.length hmap
    simpa using this
  have hva : a.sequenceId = (s + i) % 65536 := by
    have h1 := congrArg (fun l => l[i]?) hmap
    simp only [List.getElem?_map, ha,
      List.getElem?_range (show i < n * targets.length by omega),
      Option.map_some', Option.some.injEq] at h1
    exact h1
  have hvb : b.sequenceId = (s + j) % 65536 := by
    have h1 := congrArg (fun l => l[j]?) hmap
    simp only [List.getElem?_map, hb,
      List.getElem?_range (show j < n * targets.length by omega),
      Option.map_some', Option.some.injEq] at h1
    exact h1
  rw [hva, hvb] at hseq
  have hdvd : 65536 ∣ (s + j) - (s + i) :=
    (Nat.modEq_iff_dvd' (by omega)).mp hseq
  have heq : (s + j) - (s + i) = j - i := by omega
  rw [heq] at hdvd
  have := Nat.le_of_dvd (by omega) hdvd
  omega

/-- Witness for C1: in a concrete run with two targets, the two in-flight
items carry distinct (identifier, sequence) pairs. -/
theorem inflight_pairs_distinct_witness :
    ¬(ICMPPingItem.targetId ⟨7, 1, 0, true⟩ = ICMPPingItem.targetId ⟨9, 2, 0, true⟩ ∧
      ICMPPingItem.sequenceId ⟨7, 1, 0, true⟩
        = ICMPPingItem.sequenceId ⟨9, 2, 0, true⟩) :=
  inflight_pairs_distinct (fun _ _ => true) [⟨0, 7⟩, ⟨1, 9⟩] (fun _ => 0) 10000
    1 1 0 1 ⟨7, 1, 0, true⟩ ⟨9, 2, 0, true⟩ (by decide) (by decide) (by decide)
    (by decide) (by decide)

/-- Claim C1, counterexample: nothing in the transmitter retires or bounds
in-flight items, so after the 16-bit counter wraps the original claim fails:
in a run with one target (identifier 7) starting from counter 1, item 0 and
item 65536 — an item pending from before the wrap and a new item reusing
its number — carry the same (identifier, sequence) pair (7, 1). -/
theorem inflight_pair_reuse_after_wrap_cex :
    ((doWork (fun _ _ => true) [⟨0, 7⟩] (fun _ => 0) 10000 65537 1).2.1)[0]?
        = some ⟨7, 1, 0, true⟩ ∧
    ((doWork (fun _ _ => true) [⟨0, 7⟩] (fun _ => 0) 10000 65537 1).2.1)[65536]?
        = some ⟨7, 1, 65536, true⟩ ∧
    ICMPPingItem.targetId ⟨7, 1, 0, true⟩
      = ICMPPingItem.targetId ⟨7, 1, 65536, true⟩ ∧
    ICMPPingItem.sequenceId ⟨7, 1, 0, true⟩
      = ICMPPingItem.sequenceId ⟨7, 1, 65536, true⟩ := by
  set items := (doWork (fun _ _ => true) [⟨0, 7⟩] (fun _ => 0) 10000 65537 1).2.1
    with hitems
  have hdw : items = (doWorkLoop (fun _ _ => true) [⟨0, 7⟩] (fun _ => 0) 10000
      65537 0 1).2.1 :=
    doWork_items (fun _ _ => true) [⟨0, 7⟩] (fun _ => 0) 10000 65537 1
  have hseq : items.map ICMPPingItem.sequenceId
      = (List.range 65537).map (fun j => (1 + j) % 65536) := by
    rw [hdw]
    have h := loop_seq_map (fun _ _ => true) [⟨0, 7⟩] (fun _ => 0) 10000 65537
      0 1 (by norm_num)
    have hl : List.length [(⟨0, 7⟩ : ICMPPingTarget)] = 1 := rfl
    rw [hl, Nat.mul_one] at h
    exact h
  have htid : items.map ICMPPingItem.targetId = List.replicate 65537 7 := by
    rw [hdw]
    have h := loop_targetId_map (fun _ _ => true) [⟨0, 7⟩] (fun _ => 0) 10000
      65537 0 1
    rw [show ([(⟨0, 7⟩ : ICMPPingTarget)]).map ICMPPingTarget.id = [7] from rfl,
      flatten_replicate_singleton] at h
    exact h
  have hsam : items.map ICMPPingItem.sampleNumber = List.range 65537 := by
    rw [hdw]
    have h := loop_sample_map (fun _ _ => true) [⟨0, 7⟩] (fun _ => 0) 10000
      65537 0 1
    simp only [List.length_cons, List.length_nil, Nat.zero_add] at h
    rw [h]
    exact flatten_map_single (List.range 65537)
  have htim : items.map ICMPPingItem.timerStarted = List.replicate 65537 true := by
    rw [hdw]
    have h := loop_timer_map (fun _ _ => true) [⟨0, 7⟩] (fun _ => 0) 10000
      65537 0 1
    have hl : List.length [(⟨0, 7⟩ : ICMPPingTarget)] = 1 := rfl
    rw [hl, Nat.mul_one] at h
    exact h
  have hlen : items.length = 65537 := by
    have h2 := congrArg List.length htid
    rw [List.length_map, List.length_replicate] at h2
    exact h2
  have hb0 : 0 < items.length := by omega
  have hb1 : 65536 < items.length := by omega
  have t0 : ICMPPingItem.targetId items[0] = 7 :=
    field_at_of_map items ICMPPingItem.targetId _ 0 hb0 7 htid
      (by rw [List.getElem?_replicate]; norm_num)
  have q0 : ICMPPingItem.sequenceId items[0] = 1 :=
    field_at_of_map items ICMPPingItem.sequenceId _ 0 hb0 1 hseq
      (by rw [List.getElem?_map, List.getElem?_range (by norm_num)]; norm_num)
  have s0 : ICMPPingItem.sampleNumber items[0] = 0 :=
    field_at_of_map items ICMPPingItem.sampleNumber _ 0 hb0 0 hsam
      (by rw [List.getElem?_range (by norm_num)])
  have b0 : ICMPPingItem.timerStarted items[0] = true :=
    field_at_of_map items ICMPPingItem.timerStarted _ 0 hb0 true htim
      (by rw [List.getElem?_replicate]; norm_num)
  have t1 : ICMPPingItem.targetId items[65536] = 7 :=
    field_at_of_map items ICMPPingItem.targetId _ 65536 hb1 7 htid
      (by rw [List.getElem?_replicate]; norm_num)
  have q1 : ICMPPingItem.sequenceId items[65536] = 1 :=
    field_at_of_map items ICMPPingItem.sequenceId _ 65536 hb1 1 hseq
      (by rw [List.getElem?_map, List.getElem?_range (by norm_num)]; norm_num)
  have s1 : ICMPPingItem.sampleNumber items[65536] = 65536 :=
    field_at_of_map items ICMPPingItem.sampleNumber _ 65536 hb1 65536 hsam
      (by rw [List.getElem?_range (by norm_num)])
  have b1 : ICMPPingItem.timerStarted items[65536] = true :=
    field_at_of_map items ICMPPingItem.timerStarted _ 65536 hb1 true htim
      (by rw [List.getElem?_replicate]; norm_num)
  refine ⟨?_, ?_, rfl, rfl⟩
  · rw [List.getElem?_eq_getElem hb0, item_eq_mk items[0] 7 1 0 true t0 q0 s0 b0]
  · rw [List.getElem?_eq_getElem hb1,
      item_eq_mk items[65536] 7 1 65536 true t1 q1 s1 b1]

/-- Claim C2, counterexample: the counter is initialised to 1, yet a run
whose counter stands at the maximum 65535 hands out 65535 and then 0 — it
does not wrap back to the configured starting value. -/
theorem seq_wrap_not_to_start_cex :
    initialSequenceId = 1 ∧
    (doWork (fun _ _ => true) [⟨0, 7⟩] (fun _ => 0) 10000 2 65535).2.1.map
        ICMPPingItem.sequenceId ≠ [65535, initialSequenceId] := by
  decide

/-- Claim C2, amended: the 16-bit counter at its maximum 65535 allocates
65535 and wraps to 0 (plain `uint16_t` overflow), so the next allocated
sequence id after the maximum is 0, not the configured starting value 1. -/
theorem seq_wrap_to_zero :
    (allocSequence 65535).1 = 65535 ∧ seqAllocAt 65535 1 = 0 ∧
    (doWork (fun _ _ => true) [⟨0, 7⟩] (fun _ => 0) 10000 2 65535).2.1.map
        ICMPPingItem.sequenceId = [65535, 0] := by
  decide

/-- Helper for C3: the coded sleep duration equals the clamped remainder. -/
theorem sleepTime_eq_max (iv el : Int) : sleepTime iv el = max 0 (iv - el) := by
  unfold sleepTime
  rcases lt_or_le el iv with h | h
  · rw [if_pos h, max_eq_right (by omega)]
  · rw [if_neg (by omega), max_eq_left (by omega)]

/-- Claim C3: each iteration ends by sleeping exactly
`max 0 (interval - elapsed)` milliseconds — the sleep event is the last
event of the round trace and its duration is the clamped remainder, so a
slow round (elapsed ≥ interval) sleeps 0 and the sleep is never negative
nor a full interval on a slow round. -/
theorem round_sleep_exact (sample : Nat) (f : Nat → Bool)
    (targets : List ICMPPingTarget) (s : Nat) (iv el : Int) :
    sleepTime iv el = max 0 (iv - el) ∧
    (transmitRound sample f targets s iv el).1.getLast?
      = some (Event.sleepFor (sleepTime iv el)) := by
  refine ⟨sleepTime_eq_max iv el, ?_⟩
  have h2 : (transmitRound sample f targets s iv el).1
      = (Event.targetsLock :: ((transmitRoundAux sample f targets 0 s).1 ++
          [Event.targetsUnlock])) ++ [Event.sleepFor (sleepTime iv el)] := by
    simp [transmitRound]
  rw [h2, List.getLast?_concat]

/-- Claim C4, counterexample: in the per-target trace the pending-table
registration (`addRequest`) occurs at position 3, strictly before the
socket send at position 5 — registration does not happen after the send. -/
theorem register_before_send_cex :
    (transmitToTarget 0 true ⟨5, 7⟩ 3).1.indexOf (Event.requestAdd 7 3 0) = 3 ∧
    (transmitToTarget 0 true ⟨5, 7⟩ 3).1.indexOf (Event.packetSend 7 3 true) = 5 ∧
    ¬((transmitToTarget 0 true ⟨5, 7⟩ 3).1.indexOf (Event.packetSend 7 3 true) <
      (transmitToTarget 0 true ⟨5, 7⟩ 3).1.indexOf (Event.requestAdd 7 3 0)) := by
  decide

/-- Claim C4, amended: for each target the transmitter allocates the
sequence id under the lock, registers the item in the engine's pending
table, builds the packet, sends it, and then starts the item's timer (the
send timestamp) — registration precedes the send, and the timestamp is
recorded after the send. -/
theorem per_target_step_order (sample : Nat) (ok : Bool) (t : ICMPPingTarget)
    (s : Nat) :
    (transmitToTarget sample ok t s).1.take 7
      = [Event.seqLock, Event.seqAlloc s, Event.seqUnlock,
         Event.requestAdd t.id s sample, Event.packetBuild t.id s,
         Event.packetSend t.id s ok, Event.timerStart t.id s] := by
  cases ok <;> rfl

/-- Claim C5: the sample counter starts at 0 and every item of round `r`
carries sample number `r`: mapping the created items to their sample
numbers gives one block per round with values 0, 1, 2, … in order. -/
theorem sample_numbers_by_round (f : Nat → Nat → Bool)
    (targets : List ICMPPingTarget) (eF : Nat → Int) (iv : Int) (n s : Nat) :
    ((doWork f targets eF iv n s).2.1).map ICMPPingItem.sampleNumber
      = List.flatten ((List.range n).map
          (fun r => List.replicate targets.length r)) := by
  have h := loop_sample_map f targets eF iv n 0 s
  simpa using h

/-- Claim C6: whatever the per-send outcomes, every round still creates one
item per registered target, in registry order, for all `n` rounds — a send
failure aborts neither the rest of the round nor the loop — and a failed
send is logged (`sendErrorLog` is emitted). -/
theorem all_targets_probed (f : Nat → Nat → Bool)
    (targets : List ICMPPingTarget) (eF : Nat → Int) (iv : Int) (n s : Nat) :
    ((doWork f targets eF iv n s).2.1).map ICMPPingItem.targetId
      = List.flatten (List.replicate n (targets.map ICMPPingTarget.id)) ∧
    (∀ (sample : Nat) (t : ICMPPingTarget) (s0 : Nat),
      Event.sendErrorLog t.id ∈ (transmitToTarget sample false t s0).1) := by
  refine ⟨loop_targetId_map f targets eF iv n 0 s, ?_⟩
  intro sample t s0
  simp [transmitToTarget]

/-- Claim C7: the target registry is mutated only with the registry mutex
held (`addTarget` appends between lock and unlock), and the transmitter
holds the same mutex throughout the per-round target iteration. -/
theorem registry_lock_discipline :
    (∀ (t : ICMPPingTarget) (ts : List ICMPPingTarget) (i a : Nat),
        ((addTarget t ts).1)[i]? = some (Event.targetAppend a) →
        lockHeldAt (addTarget t ts).1 i = true) ∧
    (∀ (sample : Nat) (f : Nat → Bool) (targets : List ICMPPingTarget)
        (s : Nat) (iv el : Int) (i : Nat),
        i < (transmitRoundAux sample f targets 0 s).1.length →
        lockHeldAt (transmitRound sample f targets s iv el).1 (1 + i) = true) := by
  constructor
  · intro t ts i a h
    match i with
    | 0 => simp [addTarget] at h
    | 1 => rfl
    | 2 => simp [addTarget] at h
    | k + 3 => simp [addTarget] at h
  · intro sample f targets s iv el i hi
    have htake : ((transmitRound sample f targets s iv el).1).take (1 + i)
        = Event.targetsLock :: ((transmitRoundAux sample f targets 0 s).1.take i) := by
      have h2 : (transmitRound sample f targets s iv el).1
          = Event.targetsLock :: ((transmitRoundAux sample f targets 0 s).1 ++
            [Event.targetsUnlock, Event.sleepFor (sleepTime iv el)]) := by
        simp [transmitRound]
      rw [h2, show 1 + i = i + 1 by omega, List.take_succ_cons,
        List.take_append_of_le_length (le_of_lt hi)]
    unfold lockHeldAt
    rw [htake, List.foldl_cons]
    exact foldl_lockStep_const _
      (fun e he => roundAux_probe sample f targets 0 s e (List.take_subset _ _ he)) _

/-- Witness for C7: in a concrete `addTarget` call the append happens with
the mutex held, and in a concrete round the mutex is held at the first
iteration event. -/
theorem registry_lock_discipline_witness :
    lockHeldAt (addTarget ⟨0, 5⟩ []).1 1 = true ∧
    lockHeldAt (transmitRound 0 (fun _ => true) [⟨0, 7⟩] 1 10000 0).1 (1 + 0) = true :=
  ⟨registry_lock_discipline.1 ⟨0, 5⟩ [] 1 5 (by decide),
   registry_lock_discipline.2 0 (fun _ => true) [⟨0, 7⟩] 1 10000 0 0 (by decide)⟩

/-- Claim C8: a freshly constructed transmitter has interval
`DefaultTransmitInterval = 10000` milliseconds, and `interval()` returns
10000 on it. -/
theorem default_interval_10000 :
    DefaultTransmitInterval = 10000 ∧ intervalOf mkICMPPingTransmitter = 10000 :=
  ⟨rfl, rfl⟩

/-- Claim C9: the trace of `doWork` starts with the epoch-setting event,
that event occurs exactly once in the whole run (hence before the first
send of the first round), and — modelled from the spec — `epoch()` returns
the time stored by `setEpoch`. -/
theorem epoch_set_once_first (f : Nat → Nat → Bool)
    (targets : List ICMPPingTarget) (eF : Nat → Int) (iv : Int) (n s : Nat) :
    ((doWork f targets eF iv n s).1).head? = some Event.epochSet ∧
    ((doWork f targets eF iv n s).1).count Event.epochSet = 1 ∧
    (∀ (t : Int) (e : EngineClock), epoch (setEpoch t e) = some t) := by
  refine ⟨rfl, ?_, fun t e => rfl⟩
  show (Event.epochSet :: (doWorkLoop f targets eF iv n 0 s).1).count
    Event.epochSet = 1
  rw [List.count_cons_self,
    List.count_eq_zero.mpr (loop_no_epochSet f targets eF iv n 0 s)]

/-- Claim C10: `setInterval` accepts every integer (including zero and
negative values), returns `true`, and a subsequent `interval()` returns
exactly the stored argument. -/
theorem setInterval_roundtrip (t : ICMPPingTransmitter) (x : Int) :
    (setInterval t x).1 = true ∧ intervalOf (setInterval t x).2 = x :=
  ⟨rfl, rfl⟩

end Pingnoo
